import Mathlib

/-!
Verification of the lyric-display application core: a shallow embedding of
the Python sources (`app/srt/parser.py`, `app/ui/main_window.py`,
`app/serial_comm/connection.py`, `app/audio/spectrum.py`,
`app/ui/oled_simulator.py`) together with theorems settling the frozen
specification claims.

Conventions: Python `int` is embedded as `Int` (arbitrary precision);
Python strings are embedded as `String` / `List Char`; Python loops are
embedded as structural recursion (with an explicit fuel argument mirroring
the loop bound where the loop itself is bounded, or with fuel equal to the
input length, which every scan below consumes at least one character per
step and therefore never exhausts).
-/

namespace LyricApp

/-- `LyricLine` named tuple from `app/srt/parser.py`:
`(index, start_ms, end_ms, text)`. -/
structure LyricLine where
  index : Int
  start_ms : Int
  end_ms : Int
  text : String
deriving DecidableEq, Repr

/-- The membership test of the lookup loop in `get_lyric_at_position`:
`line.start_ms <= adjusted < line.end_ms`. -/
def activeAt (adjusted : Int) (l : LyricLine) : Prop :=
  l.start_ms ≤ adjusted ∧ adjusted < l.end_ms

instance (adjusted : Int) (l : LyricLine) : Decidable (activeAt adjusted l) :=
  inferInstanceAs (Decidable (_ ∧ _))

/-- The `for i, line in enumerate(lyrics)` scan of `get_lyric_at_position`
(`app/srt/parser.py`, lines 147-151), with the running enumeration index
made explicit. -/
def lyricScan (adjusted : Int) : List LyricLine → Nat → Int × String
  | [], _ => (-1, "")
  | l :: rest, i =>
      if activeAt adjusted l then ((i : Int), l.text)
      else lyricScan adjusted rest (i + 1)

/-- `get_lyric_at_position(lyrics, position_ms, offset_ms)` from
`app/srt/parser.py`: `adjusted = position_ms + offset_ms`, then return the
first `(i, line.text)` with `start_ms <= adjusted < end_ms`, else `(-1, "")`. -/
def getLyricAtPosition (lyrics : List LyricLine) (position_ms : Int)
    (offset_ms : Int := 0) : Int × String :=
  lyricScan (position_ms + offset_ms) lyrics 0

lemma lyricScan_spec (a : Int) (l : List LyricLine) (n : Nat) :
    (lyricScan a l n = (-1, "") ∧ ∀ x ∈ l, ¬ activeAt a x)
    ∨ (∃ i : Nat, ∃ h : i < l.length,
        lyricScan a l n = (((n + i : Nat) : Int), (l.get ⟨i, h⟩).text)
        ∧ activeAt a (l.get ⟨i, h⟩)
        ∧ ∀ x ∈ l.take i, ¬ activeAt a x) := by
  induction l generalizing n with
  | nil => exact Or.inl ⟨rfl, by simp⟩
  | cons x xs ih =>
      by_cases hx : activeAt a x
      · refine Or.inr ⟨0, by simp, ?_, by simpa using hx, by simp⟩
        simp [lyricScan, hx]
      · rcases ih (n + 1) with ⟨heq, hall⟩ | ⟨i, hi, heq, hact, hpre⟩
        · refine Or.inl ⟨?_, ?_⟩
          · simp [lyricScan, hx, heq]
          · intro y hy
            rcases List.mem_cons.mp hy with rfl | hy
            · exact hx
            · exact hall y hy
        · refine Or.inr ⟨i + 1, by simpa using Nat.succ_lt_succ hi, ?_, ?_, ?_⟩
          · have : n + 1 + i = n + (i + 1) := by omega
            simpa [lyricScan, hx, this] using heq
          · simpa using hact
          · intro y hy
            rcases List.mem_cons.mp (by simpa [List.take] using hy) with rfl | hy'
            · exact hx
            · exact hpre y hy'

/-! ### Sync engine (`app/ui/main_window.py`) -/

/-- Device commands issued by `MainWindow._sync_lyrics` through the serial
link: `send_mode(m)`, `send_text(s)`, `send_clear()`. -/
inductive Cmd where
  | mode (m : String)
  | txt (s : String)
  | clr
deriving DecidableEq, Repr

/-- True exactly for the lyric-content commands `TXT|...` and `CLR`. -/
def Cmd.isLyric : Cmd → Bool
  | .txt _ => true
  | .clr => true
  | .mode _ => false

/-- The `MainWindow` fields touched by `_sync_lyrics`: `_in_lyric_gap`,
`_last_lyric_idx`, and the OLED simulator's mode and text. -/
structure SyncState where
  in_lyric_gap : Bool
  last_lyric_idx : Int
  sim_mode : String
  sim_text : String
deriving DecidableEq, Repr

/-- The scan of `MainWindow._gap_until_next_lyric`: first line in list order
with `start_ms > adjusted` yields `start_ms - adjusted`, else `-1`. -/
def gapScan (adjusted : Int) : List LyricLine → Int
  | [] => -1
  | l :: rest => if l.start_ms > adjusted then l.start_ms - adjusted
                 else gapScan adjusted rest

/-- `MainWindow._gap_until_next_lyric(position_ms, total_offset)`
(`app/ui/main_window.py`, lines 603-609).  Note the source computes
`adjusted = position_ms - total_offset` (the offset is subtracted), whereas
`get_lyric_at_position` adds it. -/
def gapUntilNextLyric (lyrics : List LyricLine) (position_ms total_offset : Int) : Int :=
  gapScan (position_ms - total_offset) lyrics

/-- The auto-mode-switch block of `_sync_lyrics` (lines 574-588): when the
configured display mode is `"lyrics"`, empty resolved text with the gap flag
clear enters the gap (if `_gap_until_next_lyric` is `< 0` or `> 300`) and
switches to equalizer; non-empty text with the flag set leaves the gap and
switches back to lyrics. -/
def syncGapPhase (displayMode : String) (connected : Bool)
    (lyrics : List LyricLine) (position_ms total_offset : Int) (text : String)
    (st : SyncState) : SyncState × List Cmd :=
  if displayMode = "lyrics" then
    if text = "" ∧ st.in_lyric_gap = false then
      if gapUntilNextLyric lyrics position_ms total_offset < 0
          ∨ gapUntilNextLyric lyrics position_ms total_offset > 300 then
        ({ st with in_lyric_gap := true, sim_mode := "equalizer" },
         if connected then [Cmd.mode "equalizer"] else [])
      else (st, [])
    else if text ≠ "" ∧ st.in_lyric_gap = true then
      ({ st with in_lyric_gap := false, sim_mode := "lyrics" },
       if connected then [Cmd.mode "lyrics"] else [])
    else (st, [])
  else (st, [])

/-- The index-change block of `_sync_lyrics` (lines 590-601): commands are
sent only when the resolved index differs from `_last_lyric_idx`, and the
device command is suppressed unless connected and not in a gap. -/
def syncSendPhase (connected : Bool) (idx : Int) (text : String)
    (st : SyncState) : SyncState × List Cmd :=
  if idx ≠ st.last_lyric_idx then
    let st1 := { st with last_lyric_idx := idx }
    let devCmds :=
      if connected ∧ st.in_lyric_gap = false then
        (if text ≠ "" then [Cmd.txt text] else [Cmd.clr])
      else []
    let st2 :=
      if text ≠ "" then { st1 with sim_text := text }
      else if st.in_lyric_gap = false then { st1 with sim_text := "" }
      else st1
    (st2, devCmds)
  else (st, [])

/-- `MainWindow._sync_lyrics(position_ms)` (lines 560-601), restricted to the
state it reads and writes and the device commands it emits.  The PC-side
label updates (`_controls.set_lyric`, offset-editor refresh) touch no state
used elsewhere and are omitted. -/
def syncLyrics (displayMode : String) (connected : Bool)
    (lyrics : List LyricLine) (position_ms total_offset : Int)
    (st : SyncState) : SyncState × List Cmd :=
  if lyrics = [] then (st, [])
  else
    let r := getLyricAtPosition lyrics position_ms total_offset
    let p1 := syncGapPhase displayMode connected lyrics position_ms total_offset r.2 st
    let p2 := syncSendPhase connected r.1 r.2 p1.1
    (p2.1, p1.2 ++ p2.2)

/-! ### Python string helpers shared by the embeddings -/

/-- ASCII whitespace recognised by Python's `str.strip()` (the inputs in
this repository are ASCII). -/
def isPySpace (c : Char) : Bool :=
  c = ' ' ∨ c = '\t' ∨ c = '\n' ∨ c = '\r' ∨ c = '\x0b' ∨ c = '\x0c'

/-- Python `str.strip()` on a character list. -/
def pyStripChars (cs : List Char) : List Char :=
  ((cs.dropWhile isPySpace).reverse.dropWhile isPySpace).reverse

/-- Python `str.split(sep)` for a one-character separator, with the
accumulator of the current field made explicit.  `"".split(sep) = [""]`. -/
def splitOnCharGo (sep : Char) (acc : List Char) : List Char → List (List Char)
  | [] => [acc.reverse]
  | c :: rest =>
      if c = sep then acc.reverse :: splitOnCharGo sep [] rest
      else splitOnCharGo sep (c :: acc) rest

/-- Numeric value of a decimal digit character. -/
def digitVal (c : Char) : Nat := c.toNat - '0'.toNat

/-- Parse a non-empty all-digit character list as a natural number. -/
def parseDigits (cs : List Char) : Option Nat :=
  if cs ≠ [] ∧ cs.all Char.isDigit then
    some (cs.foldl (fun a c => 10 * a + digitVal c) 0)
  else none

/-- Python `int(s)` (returning `none` on `ValueError`): strip whitespace,
optional sign, decimal digits. -/
def pyParseInt (cs : List Char) : Option Int :=
  match pyStripChars cs with
  | '+' :: rest => (parseDigits rest).map (fun n => (n : Int))
  | '-' :: rest => (parseDigits rest).map (fun n => -(n : Int))
  | t => (parseDigits t).map (fun n => (n : Int))

/-- Python `sep.join(parts)` on character lists. -/
def pyJoin (sep : List Char) : List (List Char) → List Char
  | [] => []
  | [p] => p
  | p :: q :: ps => p ++ sep ++ pyJoin sep (q :: ps)

/-! ### Serial transport (`app/serial_comm/connection.py`) -/

/-- The Qt signals of `SerialConnection` that carry link-state information. -/
inductive ConnEvent where
  | connEv
  | discEv
  | errEv (msg : String)
deriving DecidableEq, Repr

/-- The `SerialConnection` state read and written by `_send_ping` and
`close_port`: `_running`, whether the serial handle is open, `_is_connected`,
`_last_pong_time` (seconds, as returned by `time.time()`), and `_port`. -/
structure ConnState where
  running : Bool
  serial_open : Bool
  is_connected : Bool
  last_pong_time : ℚ
  port : String
deriving DecidableEq, Repr

def PING_INTERVAL_S : ℚ := 2
def PONG_TIMEOUT_S : ℚ := 5

/-- `SerialConnection._send_ping` (lines 162-173): returns the new state, the
emitted events, and whether a full `close_port` was scheduled for a later
scheduler turn (`QTimer.singleShot(0, self.close_port)`).  The `PING` write
itself touches no modelled state. -/
def sendPing (now : ℚ) (st : ConnState) : ConnState × List ConnEvent × Bool :=
  if st.running = false then (st, [], false)
  else if now - st.last_pong_time > PONG_TIMEOUT_S then
    ({ st with is_connected := false },
     [ConnEvent.errEv ("No response from " ++ st.port)],
     true)
  else (st, [], false)

/-- `SerialConnection.close_port` (lines 106-125): stop the reader, release
the handle, and emit `disconnected` only if `_is_connected` was still set. -/
def closePort (st : ConnState) : ConnState × List ConnEvent :=
  let st1 : ConnState := { st with running := false, serial_open := false }
  if st1.is_connected then
    ({ st1 with is_connected := false }, [ConnEvent.discEv])
  else (st1, [])

/-- Clamp applied by `send_equalizer`: `max(0, min(12, int(v)))`. -/
def clampLevel (v : Int) : Int := max 0 (min 12 v)

/-- Digits of Python `str(v)` for an integer `v`. -/
def intDigits (v : Int) : List Char := (toString v).data

/-- `SerialConnection.send_equalizer(levels)` (lines 156-160): the full wire
line `EQ|<v0,...,vN>\n` with each value clamped to `[0, 12]` and the values
comma-joined. -/
def sendEqualizer (levels : List Int) : String :=
  ⟨'E' :: 'Q' :: '|' ::
    (pyJoin [','] (levels.map fun v => intDigits (clampLevel v)) ++ ['\n'])⟩

/-- Modelled from the spec: the device-side parser of the `EQ|<v0,...,v11>`
wire command is not part of this repository (it lives in the ESP32
firmware); per the spec's wire-protocol table it reads the newline-delimited
line, splits the payload on commas and parses each field as an integer (an
empty payload carries no levels). -/
def deviceParseEq (line : String) : Option (List Int) :=
  match line.data with
  | 'E' :: 'Q' :: '|' :: rest =>
      if rest.getLast? = some '\n' then
        if rest.dropLast = [] then some []
        else (splitOnCharGo ',' [] rest.dropLast).mapM pyParseInt
      else none
  | _ => none

/-! ### Spectrum analyzer (`app/audio/spectrum.py`)

Floating-point arithmetic is embedded as exact real arithmetic (`ℝ`). -/

def NUM_BANDS : ℕ := 12
def SAMPLE_RATE : ℕ := 44100
def FFT_SIZE : ℕ := 2048

/-- `np.hanning(2048)[n] = 0.5 - 0.5 * cos(2*pi*n/2047)`. -/
noncomputable def hannWindow (n : ℕ) : ℝ :=
  0.5 - 0.5 * Real.cos (2 * Real.pi * n / 2047)

/-- One entry of `_compute_band_edges` (lines 118-129): geometric
interpolation of band-edge frequencies between 60 Hz and 16 kHz, truncated
to FFT-bin indices. -/
noncomputable def bandEdge (sample_rate : ℕ) (i : ℕ) : ℕ × ℕ :=
  let fmin : ℝ := 60
  let fmax : ℝ := 16000
  let loFreq : ℝ := fmin * (fmax / fmin) ^ ((i : ℝ) / 12)
  let hiFreq : ℝ := fmin * (fmax / fmin) ^ (((i : ℝ) + 1) / 12)
  let loBin : ℕ := max 1 (⌊loFreq * 2048 / (sample_rate : ℝ)⌋.toNat)
  let hiBin : ℕ := max (loBin + 1) (⌊hiFreq * 2048 / (sample_rate : ℝ)⌋.toNat)
  (loBin, hiBin)

/-- `self._band_edges`, computed once for `SAMPLE_RATE = 44100`. -/
noncomputable def bandEdges : List (ℕ × ℕ) := (List.range 12).map (bandEdge 44100)

/-- `band_rms = np.sqrt(np.mean(fft_mag[low_bin:hi] ** 2))` with
`hi = min(high_bin, len(fft_mag))` (lines 90-94). -/
noncomputable def bandRmsOf (fftMag : List ℝ) (lo hi : ℕ) : ℝ :=
  let seg := (fftMag.drop lo).take (min hi fftMag.length - lo)
  Real.sqrt ((seg.map fun x => x ^ 2).sum / seg.length)

/-- The claim-side level formula: integer truncation of the clamp to
`[0, 12]` of `(db + 48) * 12 / 45`.  Python's `int()` truncates toward
zero, and the clamped value is non-negative, so truncation is `⌊·⌋`. -/
noncomputable def levelOfDb (db : ℝ) : ℤ :=
  ⌊max 0 (min 12 ((db + 48) * 12 / 45))⌋

/-- One iteration of the band loop in `get_levels` (lines 89-98): `0` for a
degenerate bin range, otherwise
`int(max(0, min(12, (db + 48) * 12 / 45)))` with
`db = 20 * log10(band_rms + 1e-10)`. -/
noncomputable def bandLevel (fftMag : List ℝ) (lo hi : ℕ) : ℤ :=
  if lo ≥ min hi fftMag.length then 0
  else
    ⌊max 0 (min 12
      ((20 * Real.logb 10 (bandRmsOf fftMag lo hi + 1e-10) + 48) * 12 / 45))⌋

/-- `fft_mag = np.abs(np.fft.rfft(chunk)) * 2.0 / FFT_SIZE` (line 86) as the
defining DFT sum of a length-2048 real input (1025 output bins). -/
noncomputable def rfftMag (chunk : List ℝ) : List ℝ :=
  (List.range (2048 / 2 + 1)).map fun k =>
    Complex.abs ((chunk.enum.map fun p =>
      (p.2 : ℂ) * Complex.exp (-2 * Real.pi * Complex.I * (k : ℂ) * (p.1 : ℂ) / 2048)).sum)
    * 2 / 2048

/-- The band loop of `get_levels` over all twelve band edges. -/
noncomputable def computeLevels (fftMag : List ℝ) : List ℤ :=
  bandEdges.map fun e => bandLevel fftMag e.1 e.2

/-- `SpectrumAnalyzer.get_levels(position_ms)` (lines 62-100).  `hasNumpy`
embeds `_HAS_NUMPY`; `samples` embeds the decoded-sample slot (`none` until
`_decode` completes, and `_decode` always stores rate 44100).  The window
start is `max(0, sample_idx - 1024)`, which is natural subtraction here. -/
noncomputable def getLevels (hasNumpy : Bool) (samples : Option (List ℝ))
    (position_ms : ℕ) : Option (List ℤ) :=
  if hasNumpy = false then none
  else
    match samples with
    | none => none
    | some s =>
        if (position_ms * 44100 / 1000 - 1024) + 2048 > s.length then
          some (List.replicate 12 0)
        else
          some (computeLevels (rfftMag
            (((s.drop (position_ms * 44100 / 1000 - 1024)).take 2048).enum.map
              fun p => p.2 * hannWindow p.1)))

/-! ### OLED renderer word-wrap (`app/ui/oled_simulator.py`) -/

def SCREEN_WIDTH : Nat := 128
def GFX_CHAR_W : Nat := 6
def GFX_CHAR_H : Nat := 8

/-- The `last_space` scan of `_word_wrap` (lines 422-425): running index and
running best, `-1` when no space occurs in the scanned window. -/
def lastSpaceFrom : List Char → Nat → Int → Int
  | [], _, best => best
  | c :: rest, i, best =>
      lastSpaceFrom rest (i + 1) (if c = ' ' then (i : Int) else best)

def lastSpace (w : List Char) : Int := lastSpaceFrom w 0 (-1)

/-- The `while` loop of `_OledCanvas._word_wrap` (lines 411-434).  The fuel
argument is the remaining line allowance `32 - len(lines)`; the loop guard
`len(lines) < 32` makes it the loop's bound.  Indices are relative to `pos`:
the source's `last_space > pos` is `lastSpace window > 0` here. -/
def wordWrapGo (cpl : Nat) : Nat → List Char → List (List Char)
  | 0, _ => []
  | _ + 1, [] => []
  | budget + 1, c :: cs =>
      if (c :: cs).length ≤ cpl then [c :: cs]
      else if lastSpace ((c :: cs).take cpl) > 0 then
        (c :: cs).take (lastSpace ((c :: cs).take cpl)).toNat
          :: wordWrapGo cpl budget
              ((c :: cs).drop ((lastSpace ((c :: cs).take cpl)).toNat + 1))
      else
        (c :: cs).take cpl :: wordWrapGo cpl budget ((c :: cs).drop cpl)

/-- `_OledCanvas._word_wrap(text, chars_per_line)`. -/
def wordWrap (text : String) (chars_per_line : Nat) : List String :=
  (wordWrapGo chars_per_line 32 text.data).map fun l => ⟨l⟩

/-- Index of the last space of a window, as a structural function (claim
side). -/
def lastSpacePos : List Char → Option Nat
  | [] => none
  | c :: rest =>
      match lastSpacePos rest with
      | some k => some (k + 1)
      | none => if c = ' ' then some 0 else none

/-- Wrap following the claim's words: break each line at the last space
within the `chars_per_line` budget whenever one exists (the breaking space
consumed, not emitted), hard-break only when no space lies in the budget. -/
def specWrapGo (cpl : Nat) : Nat → List Char → List (List Char)
  | 0, _ => []
  | _ + 1, [] => []
  | budget + 1, c :: cs =>
      if (c :: cs).length ≤ cpl then [c :: cs]
      else
        match lastSpacePos ((c :: cs).take cpl) with
        | some k => (c :: cs).take k :: specWrapGo cpl budget ((c :: cs).drop (k + 1))
        | none => (c :: cs).take cpl :: specWrapGo cpl budget ((c :: cs).drop cpl)

def specWrap (text : String) (chars_per_line : Nat) : List String :=
  (specWrapGo chars_per_line 32 text.data).map fun l => ⟨l⟩

/-- Wrap following the amended claim: break at the last space lying strictly
after the line's first character; a space at the line's first position is
not a break point (the hard-broken line then carries it). -/
def amendedWrapGo (cpl : Nat) : Nat → List Char → List (List Char)
  | 0, _ => []
  | _ + 1, [] => []
  | budget + 1, c :: cs =>
      if (c :: cs).length ≤ cpl then [c :: cs]
      else
        match lastSpacePos ((c :: cs).take cpl) with
        | some k =>
            if 0 < k then
              (c :: cs).take k :: amendedWrapGo cpl budget ((c :: cs).drop (k + 1))
            else (c :: cs).take cpl :: amendedWrapGo cpl budget ((c :: cs).drop cpl)
        | none => (c :: cs).take cpl :: amendedWrapGo cpl budget ((c :: cs).drop cpl)

def amendedWrap (text : String) (chars_per_line : Nat) : List String :=
  (amendedWrapGo chars_per_line 32 text.data).map fun l => ⟨l⟩

/-- `chars_per_line = max(1, SCREEN_WIDTH // char_w)` from `_paint_lyrics`
(line 291), with `char_w = GFX_CHAR_W * text_size`. -/
def charsPerLine (textSize : Nat) : Nat := max 1 (SCREEN_WIDTH / (GFX_CHAR_W * textSize))

/-- `self._total_lyric_height = len(lines) * char_h` from `_paint_lyrics`
(lines 289-294). -/
def totalLyricHeight (text : String) (textSize : Nat) : Nat :=
  (wordWrap text (charsPerLine textSize)).length * (GFX_CHAR_H * textSize)

/-! ### SRT/LRC parsing (`app/srt/parser.py`)

The regular expressions of the source are embedded as explicit matchers
with the same greedy/backtracking behaviour on their fixed patterns. -/

/-- Python `text.replace("\r\n", "\n")` (left-to-right, non-overlapping). -/
def replaceCrLf : List Char → List Char
  | [] => []
  | '\r' :: '\n' :: rest => '\n' :: replaceCrLf rest
  | c :: rest => c :: replaceCrLf rest

/-- `re.split(r"\n\n+", text)`: split on maximal runs of two or more
newlines.  Fuel-bounded scan; every step consumes at least one character,
so fuel `length + 1` never runs out. -/
def splitBlocksGo : Nat → List Char → List Char → List (List Char)
  | 0, acc, _ => [acc.reverse]
  | _ + 1, acc, [] => [acc.reverse]
  | fuel + 1, acc, '\n' :: '\n' :: rest =>
      acc.reverse :: splitBlocksGo fuel [] (rest.dropWhile (· = '\n'))
  | fuel + 1, acc, c :: rest => splitBlocksGo fuel (c :: acc) rest

def splitBlocks (cs : List Char) : List (List Char) :=
  splitBlocksGo (cs.length + 1) [] cs

/-- Matcher for `(\d{1,2}):` — greedy two digits with backtracking to one. -/
def matchOneTwoDigitsColon : List Char → Option (Nat × List Char)
  | a :: b :: rest =>
      if a.isDigit then
        if b.isDigit then
          match rest with
          | ':' :: r => some (10 * digitVal a + digitVal b, r)
          | _ => none
        else if b = ':' then some (digitVal a, rest)
        else none
      else none
  | _ => none

/-- Matcher for `(\d{2})`. -/
def matchTwoDigits : List Char → Option (Nat × List Char)
  | a :: b :: rest =>
      if a.isDigit && b.isDigit then some (10 * digitVal a + digitVal b, rest)
      else none
  | _ => none

def expectChar (c : Char) : List Char → Option (List Char)
  | d :: rest => if d = c then some rest else none
  | [] => none

/-- Matcher for a trailing `(\d{1,3})` — up to three digits, at least one. -/
def matchUpTo3Digits (cs : List Char) : Option (List Char × List Char) :=
  let d := (cs.takeWhile Char.isDigit).take 3
  if d.length = 0 then none else some (d, cs.drop d.length)

/-- `_TIMESTAMP_RE.match`: `(\d{1,2}):(\d{2}):(\d{2})[,.](\d{1,3})` anchored
at the start, trailing characters ignored; yields the four groups. -/
def matchTimestampChars (cs : List Char) : Option (Nat × Nat × Nat × List Char) :=
  match matchOneTwoDigitsColon cs with
  | none => none
  | some (h, r1) =>
      match matchTwoDigits r1 with
      | none => none
      | some (mi, r2) =>
          match expectChar ':' r2 with
          | none => none
          | some r3 =>
              match matchTwoDigits r3 with
              | none => none
              | some (se, r4) =>
                  match r4 with
                  | sep :: r5 =>
                      if sep = ',' || sep = '.' then
                        match matchUpTo3Digits r5 with
                        | some (d, _) => some (h, mi, se, d)
                        | none => none
                      else none
                  | [] => none

/-- `millis.ljust(3, "0")` followed by `int(...)`. -/
def millisOfDigits (d : List Char) : Nat :=
  (parseDigits (d ++ List.replicate (3 - d.length) '0')).getD 0

/-- `_parse_timestamp(ts)` (lines 27-40): strip, match, `0` on failure. -/
def parseTimestampMs (cs : List Char) : Int :=
  match matchTimestampChars (pyStripChars cs) with
  | none => 0
  | some (h, mi, se, d) =>
      ((h * 3600000 + mi * 60000 + se * 1000 + millisOfDigits d : Nat) : Int)

/-- `re.split(r"\s*-->\s*", ts_line)`: each separator is a `-->` with the
maximal whitespace runs on both sides. -/
def splitArrowGo : Nat → List Char → List Char → List (List Char)
  | 0, acc, _ => [acc.reverse]
  | _ + 1, acc, [] => [acc.reverse]
  | fuel + 1, acc, '-' :: '-' :: '>' :: rest =>
      (acc.dropWhile isPySpace).reverse
        :: splitArrowGo fuel [] (rest.dropWhile isPySpace)
  | fuel + 1, acc, c :: rest => splitArrowGo fuel (c :: acc) rest

def splitArrow (cs : List Char) : List (List Char) :=
  splitArrowGo (cs.length + 1) [] cs

/-- `re.sub(r"<[^>]+>", "", text)`: drop `<`, at least one non-`>`
character, and the closing `>`; a `<` with no such closing is kept. -/
def stripHtmlGo : Nat → List Char → List Char
  | 0, cs => cs
  | _ + 1, [] => []
  | fuel + 1, '<' :: rest =>
      if (rest.takeWhile (fun c => ¬ c = '>')).length = 0
          ∨ (rest.takeWhile (fun c => ¬ c = '>')).length = rest.length then
        '<' :: stripHtmlGo fuel rest
      else stripHtmlGo fuel (rest.drop ((rest.takeWhile (fun c => ¬ c = '>')).length + 1))
  | fuel + 1, c :: rest => c :: stripHtmlGo fuel rest

def stripHtml (cs : List Char) : List Char := stripHtmlGo (cs.length + 1) cs

/-- One block of the `parse_srt` loop (lines 56-82): at least two lines,
integer index, a two-part `-->` timestamp line, joined/HTML-stripped text;
`none` plays the role of the loop's `continue` / empty-subtitle skip. -/
def parseSrtBlock (block : List Char) : Option LyricLine :=
  match splitOnCharGo '\n' [] (pyStripChars block) with
  | l0 :: l1 :: rest =>
      match pyParseInt (pyStripChars l0) with
      | none => none
      | some idx =>
          match splitArrow (pyStripChars l1) with
          | [p0, p1] =>
              let sub := stripHtml (List.intercalate [' ']
                ((rest.map pyStripChars).filter (fun l => ¬ l.isEmpty)))
              if sub.isEmpty then none
              else some ⟨idx, parseTimestampMs p0, parseTimestampMs p1, ⟨sub⟩⟩
          | _ => none
  | _ => none

/-- Closing part of the optional LRC millis group `(?:[.:](\d{1,3}))?\]`:
greedy one-to-three digits whose following character must be `]`. -/
def lrcMillisClose (r : List Char) : Option (List Char × List Char) :=
  let d := (r.takeWhile Char.isDigit).take 3
  if d.length = 0 then none
  else
    match r.drop d.length with
    | ']' :: rest => some (d, rest)
    | _ => none

/-- `_LRC_TIMESTAMP_RE` matched at the current position:
`\[(\d{1,2}):(\d{2})(?:[.:](\d{1,3}))?\]`; yields
`(minutes, seconds, millis digits)` (empty digits when the optional group is
absent) and the remaining input. -/
def matchLrcAt (cs : List Char) : Option ((Nat × Nat × List Char) × List Char) :=
  match cs with
  | '[' :: r0 =>
      match matchOneTwoDigitsColon r0 with
      | none => none
      | some (mi, r1) =>
          match matchTwoDigits r1 with
          | none => none
          | some (se, r2) =>
              match r2 with
              | ']' :: rest => some ((mi, se, []), rest)
              | sep :: r3 =>
                  if sep = '.' || sep = ':' then
                    match lrcMillisClose r3 with
                    | some (d, rest) => some ((mi, se, d), rest)
                    | none => none
                  else none
              | [] => none
  | _ => none

/-- `finditer`: non-overlapping matches, scanning left to right. -/
def lrcFindAllGo : Nat → List Char → List (Nat × Nat × List Char)
  | 0, _ => []
  | _ + 1, [] => []
  | fuel + 1, c :: rest =>
      match matchLrcAt (c :: rest) with
      | some (g, after) => g :: lrcFindAllGo fuel after
      | none => lrcFindAllGo fuel rest

/-- `_LRC_TIMESTAMP_RE.sub("", line)`. -/
def lrcStripGo : Nat → List Char → List Char
  | 0, cs => cs
  | _ + 1, [] => []
  | fuel + 1, c :: rest =>
      match matchLrcAt (c :: rest) with
      | some (_, after) => lrcStripGo fuel after
      | none => c :: lrcStripGo fuel rest

/-- The per-line body of the `_parse_lrc` loop (lines 95-111): all timestamp
matches paired with the timestamp-stripped, stripped lyric text. -/
def lrcEntriesOfLine (line : List Char) : List (Int × List Char) :=
  let ts := lrcFindAllGo (line.length + 1) line
  if ts.isEmpty then []
  else
    ts.map (fun g =>
      (((g.1 * 60000 + g.2.1 * 1000
          + millisOfDigits (if g.2.2.isEmpty then ['0'] else g.2.2) : Nat) : Int),
       pyStripChars (lrcStripGo (line.length + 1) line)))

/-- The key of `entries.sort(key=lambda item: item[0])`. -/
def leFst (a b : Int × List Char) : Bool := a.1 ≤ b.1

/-- The output loop of `_parse_lrc` (lines 117-125): `enumerate(entries, 1)`
with each end time taken from the next entry's start (or `start + 5000` for
the last), skipping empty texts. -/
def lrcBuild : Nat → List (Int × List Char) → List LyricLine
  | _, [] => []
  | i, (s, t) :: rest =>
      if t.isEmpty then lrcBuild (i + 1) rest
      else
        ⟨(i : Int), s,
         (match rest with
          | [] => s + 5000
          | (s2, _) :: _ => s2), ⟨t⟩⟩ :: lrcBuild (i + 1) rest

/-- `_parse_lrc(text)` (lines 90-125); Python's stable `list.sort` is
`List.mergeSort`. -/
def parseLrc (cs : List Char) : List LyricLine :=
  let entries := (splitOnCharGo '\n' [] cs).flatMap
    (fun raw => lrcEntriesOfLine (pyStripChars raw))
  if entries.isEmpty then []
  else lrcBuild 1 (entries.mergeSort leFst)

/-- `parse_srt(text)` (lines 43-87): normalise line endings, strip, split
into blocks, parse each block, and fall back to the LRC parser when no SRT
block produced a line. -/
def parseSrt (text : String) : List LyricLine :=
  let t := pyStripChars (replaceCrLf text.data)
  if t.isEmpty then []
  else
    let lyrics := (splitBlocks t).filterMap parseSrtBlock
    if lyrics.isEmpty then parseLrc t else lyrics

/-- Sortedness stated by the spec: non-decreasing `start_ms` in list order. -/
def sortedByStart (l : List LyricLine) : Prop :=
  l.Pairwise (fun a b => a.start_ms ≤ b.start_ms)

/-! ## Theorems -/

/-- C1: `get_lyric_at_position(lyrics, position_ms, offset_ms)` returns
`(i, text)` for the first line in list order with
`start_ms <= position_ms + offset_ms < end_ms` and `(-1, "")` when no line
satisfies it; the offset is re-applied on every call, so
`resolve(position, offset) = resolve(position + offset, 0)`, and changing the
offset at a fixed raw position can change the result. -/
theorem c1_get_lyric_at_position_first_match :
    (∀ (lyrics : List LyricLine) (pos off : Int),
      (getLyricAtPosition lyrics pos off = (-1, "")
          ∧ ∀ x ∈ lyrics, ¬ activeAt (pos + off) x)
      ∨ (∃ i : Nat, ∃ h : i < lyrics.length,
          getLyricAtPosition lyrics pos off = ((i : Int), (lyrics.get ⟨i, h⟩).text)
          ∧ activeAt (pos + off) (lyrics.get ⟨i, h⟩)
          ∧ ∀ x ∈ lyrics.take i, ¬ activeAt (pos + off) x))
    ∧ (∀ (lyrics : List LyricLine) (pos off : Int),
        getLyricAtPosition lyrics pos off = getLyricAtPosition lyrics (pos + off) 0)
    ∧ (∃ (lyrics : List LyricLine) (pos off off' : Int),
        getLyricAtPosition lyrics pos off ≠ getLyricAtPosition lyrics pos off') := by
  refine ⟨?_, ?_, ?_⟩
  · intro lyrics pos off
    simpa [getLyricAtPosition] using lyricScan_spec (pos + off) lyrics 0
  · intro lyrics pos off
    simp [getLyricAtPosition]
  · exact ⟨[⟨1, 0, 1000, "a"⟩], 1500, -1000, 0, by decide⟩

/-- C2: evaluation of the sync engine.  The spec's zero-offset hysteresis
example holds, but with a non-zero total offset `_gap_until_next_lyric`
subtracts the offset that `get_lyric_at_position` adds, so the engine can
enter the gap (and switch to equalizer) when the actual time until the next
line is shown is below the 300 ms threshold: at lyrics `[(1,1000,2000,"a")]`,
offset 500 and position 300, the next line is shown 200 ms later, yet the
code computes a gap of 1200 ms and switches. -/
theorem c2_gap_check_uses_wrong_offset_sign :
    (let l2 : List LyricLine := [⟨1, 0, 1000, "a"⟩, ⟨2, 1400, 2000, "b"⟩]
     let s0 : SyncState := ⟨false, 0, "lyrics", "a"⟩
     let t1 := syncLyrics "lyrics" true l2 1000 0 s0
     let t2 := syncLyrics "lyrics" true l2 1399 0 t1.1
     let t3 := syncLyrics "lyrics" true l2 1400 0 t2.1
     t1.1.sim_mode = "equalizer" ∧ t1.1.in_lyric_gap = true
       ∧ t2.1.sim_mode = "equalizer" ∧ t2.1.in_lyric_gap = true
       ∧ t3.1.sim_mode = "lyrics" ∧ t3.1.in_lyric_gap = false)
    ∧ (let l1 : List LyricLine := [⟨1, 1000, 2000, "a"⟩]
       let s0 : SyncState := ⟨false, -1, "lyrics", ""⟩
       let r := syncLyrics "lyrics" true l1 300 500 s0
       (getLyricAtPosition l1 300 500).2 = ""
         ∧ gapScan (300 + 500) l1 = 200
         ∧ gapUntilNextLyric l1 300 500 = 1200
         ∧ r.1.in_lyric_gap = true
         ∧ r.1.sim_mode = "equalizer"
         ∧ r.2 = [Cmd.mode "equalizer"]) := by
  decide

lemma syncGapPhase_last_idx (d : String) (c : Bool) (l : List LyricLine)
    (p o : Int) (t : String) (st : SyncState) :
    (syncGapPhase d c l p o t st).1.last_lyric_idx = st.last_lyric_idx := by
  unfold syncGapPhase
  split_ifs <;> rfl

lemma syncGapPhase_no_lyric_cmd (d : String) (c : Bool) (l : List LyricLine)
    (p o : Int) (t : String) (st : SyncState) :
    ∀ cmd ∈ (syncGapPhase d c l p o t st).2, cmd.isLyric = false := by
  unfold syncGapPhase
  split_ifs <;> intro cmd hcmd <;> simp_all [Cmd.isLyric]

lemma syncSendPhase_gap_flag (c : Bool) (i : Int) (t : String) (st : SyncState) :
    (syncSendPhase c i t st).1.in_lyric_gap = st.in_lyric_gap := by
  unfold syncSendPhase
  split_ifs <;> rfl

lemma syncSendPhase_lyric_iff (i : Int) (t : String) (st : SyncState) :
    (∃ cmd ∈ (syncSendPhase true i t st).2, cmd.isLyric = true) ↔
      (i ≠ st.last_lyric_idx ∧ st.in_lyric_gap = false) := by
  unfold syncSendPhase
  split_ifs with h1 h2 h3 <;> simp_all [Cmd.isLyric]

lemma syncSendPhase_eq_idx (c : Bool) (i : Int) (t : String) (st : SyncState)
    (h : i = st.last_lyric_idx) : (syncSendPhase c i t st).2 = [] := by
  unfold syncSendPhase
  simp [h]

/-- C8: during a position tick on a connected link, a `TXT`/`CLR` device
command is issued iff the resolved index differs from the cached
`_last_lyric_idx` and the engine is not in a gap after the tick's mode logic
ran (an index change while in a gap is suppressed); a tick whose resolved
index equals the cached index never sends a lyric command. -/
theorem c8_lyric_command_iff_index_change :
    (∀ (displayMode : String) (lyrics : List LyricLine) (pos off : Int)
        (st : SyncState), lyrics ≠ [] →
      ((∃ c ∈ (syncLyrics displayMode true lyrics pos off st).2, c.isLyric = true)
        ↔ ((getLyricAtPosition lyrics pos off).1 ≠ st.last_lyric_idx
            ∧ (syncLyrics displayMode true lyrics pos off st).1.in_lyric_gap = false)))
    ∧ (∀ (displayMode : String) (connected : Bool) (lyrics : List LyricLine)
        (pos off : Int) (st : SyncState),
        (getLyricAtPosition lyrics pos off).1 = st.last_lyric_idx →
        ∀ c ∈ (syncLyrics displayMode connected lyrics pos off st).2,
          c.isLyric = false) := by
  constructor
  · intro displayMode lyrics pos off st hne
    unfold syncLyrics
    simp only [if_neg hne]
    set r := getLyricAtPosition lyrics pos off with hr
    set p1 := syncGapPhase displayMode true lyrics pos off r.2 st with hp1
    have hlast : p1.1.last_lyric_idx = st.last_lyric_idx :=
      syncGapPhase_last_idx _ _ _ _ _ _ _
    have hgap : (syncSendPhase true r.1 r.2 p1.1).1.in_lyric_gap = p1.1.in_lyric_gap :=
      syncSendPhase_gap_flag _ _ _ _
    constructor
    · rintro ⟨c, hc, hcl⟩
      rcases List.mem_append.mp hc with hc1 | hc2
      · exact absurd (syncGapPhase_no_lyric_cmd _ _ _ _ _ _ _ c hc1) (by simp [hcl])
      · have := (syncSendPhase_lyric_iff r.1 r.2 p1.1).mp ⟨c, hc2, hcl⟩
        exact ⟨hlast ▸ this.1, by simp [hgap, this.2]⟩
    · rintro ⟨hidx, hflag⟩
      have hflag' : p1.1.in_lyric_gap = false := by rw [← hgap]; exact hflag
      obtain ⟨c, hc, hcl⟩ := (syncSendPhase_lyric_iff r.1 r.2 p1.1).mpr
        ⟨hlast ▸ hidx, hflag'⟩
      exact ⟨c, List.mem_append.mpr (Or.inr hc), hcl⟩
  · intro displayMode connected lyrics pos off st heq c hc
    by_cases hne : lyrics = []
    · simp [syncLyrics, hne] at hc
    · unfold syncLyrics at hc
      simp only [if_neg hne] at hc
      set r := getLyricAtPosition lyrics pos off with hr
      set p1 := syncGapPhase displayMode connected lyrics pos off r.2 st with hp1
      have hlast : p1.1.last_lyric_idx = st.last_lyric_idx :=
        syncGapPhase_last_idx _ _ _ _ _ _ _
      have hsend : (syncSendPhase connected r.1 r.2 p1.1).2 = [] :=
        syncSendPhase_eq_idx _ _ _ _ (by rw [hlast]; exact heq)
      have hc' : c ∈ p1.2 := by simpa [hsend] using hc
      exact syncGapPhase_no_lyric_cmd _ _ _ _ _ _ _ c hc'

/-- C8 witness: at lyrics `[(1,0,1000,"a")]`, position 0, offset 0 and cached
index `-1`, the iff of `c8_lyric_command_iff_index_change` holds with both
sides true. -/
theorem c8_lyric_command_iff_index_change_witness :
    (([⟨1, 0, 1000, "a"⟩] : List LyricLine) ≠ [])
    ∧ ((∃ c ∈ (syncLyrics "lyrics" true [⟨1, 0, 1000, "a"⟩] 0 0
          ⟨false, -1, "lyrics", ""⟩).2, c.isLyric = true)
        ↔ ((getLyricAtPosition [⟨1, 0, 1000, "a"⟩] 0 0).1 ≠ (-1 : Int)
            ∧ (syncLyrics "lyrics" true [⟨1, 0, 1000, "a"⟩] 0 0
                ⟨false, -1, "lyrics", ""⟩).1.in_lyric_gap = false)) :=
  ⟨by decide,
   c8_lyric_command_iff_index_change.1 "lyrics" [⟨1, 0, 1000, "a"⟩] 0 0
     ⟨false, -1, "lyrics", ""⟩ (by decide)⟩

/-- C3: evaluation of the heartbeat-timeout episode.  With a connected link
whose last PONG is 6 s old, `_send_ping` marks the link not-connected, emits
the error naming the silent port, and schedules a full close for a later
scheduler turn; but because `_is_connected` is already cleared when the
scheduled `close_port` runs, `close_port` emits no `disconnected` event, and
neither does a further `close_port` — the episode emits one error and zero
disconnect events, not the claimed one disconnect/error pair. -/
theorem c3_timeout_emits_error_but_no_disconnect :
    sendPing 6 ⟨true, true, true, 0, "COM3"⟩
      = (⟨true, true, false, 0, "COM3"⟩,
         [ConnEvent.errEv "No response from COM3"], true)
    ∧ closePort ⟨true, true, false, 0, "COM3"⟩
      = (⟨false, false, false, 0, "COM3"⟩, [])
    ∧ closePort ⟨false, false, false, 0, "COM3"⟩
      = (⟨false, false, false, 0, "COM3"⟩, [])
    ∧ List.count ConnEvent.discEv
        ([ConnEvent.errEv "No response from COM3"] ++ ([] : List ConnEvent)) = 0 := by
  refine ⟨?_, by simp [closePort], by simp [closePort], by simp⟩
  simp only [sendPing]
  norm_num [PONG_TIMEOUT_S]
  decide

lemma clampLevel_mem (v : Int) :
    clampLevel v = 0 ∨ clampLevel v = 1 ∨ clampLevel v = 2 ∨ clampLevel v = 3
    ∨ clampLevel v = 4 ∨ clampLevel v = 5 ∨ clampLevel v = 6 ∨ clampLevel v = 7
    ∨ clampLevel v = 8 ∨ clampLevel v = 9 ∨ clampLevel v = 10 ∨ clampLevel v = 11
    ∨ clampLevel v = 12 := by
  unfold clampLevel
  omega

lemma clampToken_facts (v : Int) :
    intDigits (clampLevel v) ≠ [] ∧ ',' ∉ intDigits (clampLevel v)
      ∧ pyParseInt (intDigits (clampLevel v)) = some (clampLevel v) := by
  rcases clampLevel_mem v with h | h | h | h | h | h | h | h | h | h | h | h | h <;>
    rw [h] <;> exact ⟨by decide, by decide, by decide⟩

lemma splitOnCharGo_no_sep (sep : Char) (acc t : List Char) (h : sep ∉ t) :
    splitOnCharGo sep acc t = [acc.reverse ++ t] := by
  induction t generalizing acc with
  | nil => simp [splitOnCharGo]
  | cons c r ih =>
      have hc : ¬ c = sep := fun hcs => h (hcs ▸ List.mem_cons_self c r)
      have hr : sep ∉ r := fun hrs => h (List.mem_cons_of_mem c hrs)
      simp [splitOnCharGo, hc, ih _ hr]

lemma splitOnCharGo_append_sep (sep : Char) (acc t rest : List Char) (h : sep ∉ t) :
    splitOnCharGo sep acc (t ++ sep :: rest)
      = (acc.reverse ++ t) :: splitOnCharGo sep [] rest := by
  induction t generalizing acc with
  | nil => simp [splitOnCharGo]
  | cons c r ih =>
      have hc : ¬ c = sep := fun hcs => h (hcs ▸ List.mem_cons_self c r)
      have hr : sep ∉ r := fun hrs => h (List.mem_cons_of_mem c hrs)
      simp [splitOnCharGo, hc, ih _ hr]

lemma splitOnCharGo_pyJoin (toks : List (List Char))
    (h : ∀ t ∈ toks, t ≠ [] ∧ ',' ∉ t) (hne : toks ≠ []) :
    splitOnCharGo ',' [] (pyJoin [','] toks) = toks := by
  induction toks with
  | nil => exact absurd rfl hne
  | cons p ps ih =>
      cases ps with
      | nil =>
          simpa [pyJoin] using splitOnCharGo_no_sep ',' [] p (h p (by simp)).2
      | cons q qs =>
          have hstep : pyJoin [','] (p :: q :: qs) = p ++ ',' :: pyJoin [','] (q :: qs) := by
            simp [pyJoin]
          rw [hstep, splitOnCharGo_append_sep ',' [] p _ (h p (by simp)).2]
          simp only [List.reverse_nil, List.nil_append]
          rw [ih (fun t ht => h t (List.mem_cons_of_mem p ht)) (by simp)]

lemma mapM_pyParseInt_clamped (levels : List Int) :
    ((levels.map fun v => intDigits (clampLevel v)).mapM pyParseInt)
      = some (levels.map clampLevel) := by
  induction levels with
  | nil => rfl
  | cons v vs ih =>
      simp only [List.map_cons, List.mapM_cons, ih, (clampToken_facts v).2.2,
        Option.pure_def, Option.bind_eq_bind, Option.bind_some, Option.some_bind]

lemma pyJoin_ne_nil (toks : List (List Char)) (hne : toks ≠ [])
    (h : ∀ t ∈ toks, t ≠ []) : pyJoin [','] toks ≠ [] := by
  cases toks with
  | nil => exact absurd rfl hne
  | cons p ps =>
      cases ps with
      | nil => simpa [pyJoin] using h p (by simp)
      | cons q qs => simp [pyJoin]

/-- C6: `send_equalizer` encodes `EQ|` followed by the input values clamped
to `[0,12]` and comma-joined; splitting the payload on commas and parsing
the integers (device side, modelled from the spec) recovers exactly the
clamped sequence, and encode-then-parse is the identity on lists whose
elements already lie in `[0,12]`. -/
theorem c6_equalizer_wire_roundtrip :
    (∀ levels : List Int,
      deviceParseEq (sendEqualizer levels) = some (levels.map clampLevel))
    ∧ (∀ levels : List Int, (∀ v ∈ levels, 0 ≤ v ∧ v ≤ 12) →
        deviceParseEq (sendEqualizer levels) = some levels) := by
  have main : ∀ levels : List Int,
      deviceParseEq (sendEqualizer levels) = some (levels.map clampLevel) := by
    intro levels
    have hdata : (sendEqualizer levels).data
        = 'E' :: 'Q' :: '|' ::
          (pyJoin [','] (levels.map fun v => intDigits (clampLevel v)) ++ ['\n']) := rfl
    cases levels with
    | nil => rfl
    | cons v vs =>
        have htoks : ∀ t ∈ ((v :: vs).map fun v => intDigits (clampLevel v)),
            t ≠ [] ∧ ',' ∉ t := by
          intro t ht
          obtain ⟨w, _, rfl⟩ := List.mem_map.mp ht
          exact ⟨(clampToken_facts w).1, (clampToken_facts w).2.1⟩
        have hpay : pyJoin [','] ((v :: vs).map fun v => intDigits (clampLevel v)) ≠ [] :=
          pyJoin_ne_nil _ (by simp) (fun t ht => (htoks t ht).1)
        unfold deviceParseEq
        rw [hdata]
        simp only [List.getLast?_concat, List.dropLast_concat, if_pos rfl, if_neg hpay]
        rw [splitOnCharGo_pyJoin _ htoks (by simp)]
        exact mapM_pyParseInt_clamped (v :: vs)
  refine ⟨main, fun levels h => ?_⟩
  rw [main levels]
  congr 1
  have : ∀ v ∈ levels, clampLevel v = v := by
    intro v hv
    have := h v hv
    unfold clampLevel
    omega
  calc levels.map clampLevel = levels.map id := List.map_congr_left this
    _ = levels := List.map_id levels

/-- C6 witness: encode-then-parse at the concrete in-range list `[0, 12, 6]`. -/
theorem c6_equalizer_wire_roundtrip_witness :
    (∀ v ∈ ([0, 12, 6] : List Int), 0 ≤ v ∧ v ≤ 12)
    ∧ deviceParseEq (sendEqualizer [0, 12, 6]) = some [0, 12, 6] :=
  ⟨by decide, c6_equalizer_wire_roundtrip.2 [0, 12, 6] (by decide)⟩

lemma getLevels_ne_none (s : List ℝ) (pos : ℕ) :
    getLevels true (some s) pos ≠ none := by
  simp only [getLevels]
  split
  · simp_all
  · split <;> simp

/-- C4: after decoding has completed, `get_levels(position_ms)` returns
twelve all-zero levels (not `None`) for every position whose sample window
runs past the available samples; it returns `None` exactly when the numeric
capability is absent or decoding has not completed. -/
theorem c4_get_levels_availability :
    (∀ (s : List ℝ) (pos : ℕ),
      (pos * 44100 / 1000 - 1024) + 2048 > s.length →
      getLevels true (some s) pos = some (List.replicate 12 0))
    ∧ (∀ (hasNumpy : Bool) (samples : Option (List ℝ)) (pos : ℕ),
        getLevels hasNumpy samples pos = none
          ↔ (hasNumpy = false ∨ samples = none)) := by
  constructor
  · intro s pos h
    simp [getLevels, h]
  · intro hasNumpy samples pos
    cases hasNumpy with
    | false => simp [getLevels]
    | true =>
        cases samples with
        | none => simp [getLevels]
        | some s =>
            constructor
            · intro h
              exact absurd h (getLevels_ne_none s pos)
            · rintro (h | h) <;> simp_all

/-- C4 witness: a completed decode of zero samples queried at position 0
yields the all-zero levels. -/
theorem c4_get_levels_availability_witness :
    ((0 * 44100 / 1000 - 1024) + 2048 > ([] : List ℝ).length)
    ∧ getLevels true (some []) 0 = some (List.replicate 12 0) :=
  ⟨by norm_num, c4_get_levels_availability.1 [] 0 (by norm_num)⟩

/-- C7: each band level is the clamp to `[0,12]` (then integer truncation)
of `(db + 48) * 12 / 45` with `db = 20*log10(rms + 1e-10)`; the mapping is
linear from `-48 dB ↦ 0` to `-3 dB ↦ 12`, is clamped outside that range,
and every level the analyzer returns lies in `[0, 12]`. -/
theorem c7_db_level_mapping :
    (∀ (fftMag : List ℝ) (lo hi : ℕ), lo < min hi fftMag.length →
      bandLevel fftMag lo hi
        = levelOfDb (20 * Real.logb 10 (bandRmsOf fftMag lo hi + 1e-10)))
    ∧ (∀ db : ℝ, db ≤ -48 → levelOfDb db = 0)
    ∧ (∀ db : ℝ, (-3 : ℝ) ≤ db → levelOfDb db = 12)
    ∧ (∀ db : ℝ, -48 ≤ db → db ≤ -3 → levelOfDb db = ⌊(db + 48) * 12 / 45⌋)
    ∧ (∀ (fftMag : List ℝ) (lo hi : ℕ),
        0 ≤ bandLevel fftMag lo hi ∧ bandLevel fftMag lo hi ≤ 12) := by
  refine ⟨?_, ?_, ?_, ?_, ?_⟩
  · intro fftMag lo hi h
    rw [bandLevel, if_neg (not_le.mpr h), levelOfDb]
  · intro db h
    have he : (db + 48) * 12 / 45 ≤ 0 := by linarith
    rw [levelOfDb, min_eq_right (by linarith : (db + 48) * 12 / 45 ≤ 12),
      max_eq_left he, Int.floor_zero]
  · intro db h
    have he : (12 : ℝ) ≤ (db + 48) * 12 / 45 := by linarith
    rw [levelOfDb, min_eq_left he, max_eq_right (by norm_num : (0 : ℝ) ≤ 12)]
    norm_num
  · intro db h1 h2
    have hlo : (0 : ℝ) ≤ (db + 48) * 12 / 45 := by linarith
    have hhi : (db + 48) * 12 / 45 ≤ 12 := by linarith
    rw [levelOfDb, min_eq_right hhi, max_eq_right hlo]
  · intro fftMag lo hi
    rw [bandLevel]
    split
    · exact ⟨le_refl 0, by norm_num⟩
    · constructor
      · exact Int.floor_nonneg.mpr (le_max_left 0 _)
      · calc ⌊max 0 (min 12
              ((20 * Real.logb 10 (bandRmsOf fftMag lo hi + 1e-10) + 48) * 12 / 45))⌋
            ≤ ⌊(12 : ℝ)⌋ :=
              Int.floor_le_floor (max_le (by norm_num) (min_le_left _ _))
          _ = 12 := by norm_num

/-- C7 witness: the dB-to-level equality at the one-bin magnitude list `[1]`,
and the linear segment evaluated at `-24 dB`. -/
theorem c7_db_level_mapping_witness :
    (0 < min 1 [(1 : ℝ)].length)
    ∧ bandLevel [(1 : ℝ)] 0 1
        = levelOfDb (20 * Real.logb 10 (bandRmsOf [(1 : ℝ)] 0 1 + 1e-10))
    ∧ ((-48 : ℝ) ≤ -24) ∧ ((-24 : ℝ) ≤ -3)
    ∧ levelOfDb (-24) = ⌊((-24 : ℝ) + 48) * 12 / 45⌋ :=
  ⟨by norm_num, c7_db_level_mapping.1 [1] 0 1 (by norm_num),
   by norm_num, by norm_num,
   c7_db_level_mapping.2.2.2.1 (-24) (by norm_num) (by norm_num)⟩

lemma lastSpaceFrom_eq (w : List Char) : ∀ (i : Nat) (best : Int),
    lastSpaceFrom w i best
      = match lastSpacePos w with
        | some k => ((i + k : Nat) : Int)
        | none => best := by
  induction w with
  | nil => intro i best; rfl
  | cons c rest ih =>
      intro i best
      show lastSpaceFrom rest (i + 1) (if c = ' ' then (i : Int) else best) = _
      rw [ih]
      cases h : lastSpacePos rest with
      | some k =>
          simp only [lastSpacePos, h]
          congr 1
          omega
      | none =>
          simp only [lastSpacePos, h]
          by_cases hc : c = ' ' <;> simp [hc]

lemma lastSpace_eq (w : List Char) :
    lastSpace w
      = match lastSpacePos w with
        | some k => (k : Int)
        | none => -1 := by
  unfold lastSpace
  rw [lastSpaceFrom_eq]
  cases lastSpacePos w <;> simp

lemma wordWrapGo_eq_amended (cpl : Nat) : ∀ (b : Nat) (cs : List Char),
    wordWrapGo cpl b cs = amendedWrapGo cpl b cs := by
  intro b
  induction b with
  | zero => intro cs; rfl
  | succ b ih =>
      intro cs
      cases cs with
      | nil => rfl
      | cons c rest =>
          simp only [wordWrapGo, amendedWrapGo, lastSpace_eq]
          cases h : lastSpacePos ((c :: rest).take cpl) with
          | none => simp [ih]
          | some k =>
              by_cases hk : 0 < k
              · have : ((k : Int) > 0) := by exact_mod_cast hk
                simp [this, hk, ih]
              · have hk0 : k = 0 := by omega
                subst hk0
                simp [ih]

/-- C5 counterexample: at text `" ab"` and 2 chars per line, a space lies
within the first line's budget (at relative index 0), yet `_word_wrap`
hard-breaks and emits the space in the line (`" a"`), instead of breaking at
that space and consuming it as the claim states. -/
theorem c5_counterexample_space_at_line_start :
    wordWrap " ab" 2 = [" a", "b"]
    ∧ specWrap " ab" 2 = ["", "ab"]
    ∧ wordWrap " ab" 2 ≠ specWrap " ab" 2 := by
  decide

/-- C5 (amended): monospace word-wrap with
`chars_per_line = max(1, floor(canvas_width / cell_width))` packs characters
greedily, breaking each line at the last space lying strictly after the
line's first character within the budget (that breaking space is consumed,
not emitted) and hard-breaking at the character boundary otherwise — in
particular when the only in-budget space sits at the line's first position;
total content height is `line_count * cell_height`, and 40 `'x'` characters
at 20 chars/line wrap into exactly two 20-character lines with no dropped
characters. -/
theorem c5_word_wrap_amended :
    (∀ (text : String) (cpl : Nat), wordWrap text cpl = amendedWrap text cpl)
    ∧ (∀ (text : String) (textSize : Nat),
        totalLyricHeight text textSize
          = (wordWrap text (charsPerLine textSize)).length * (GFX_CHAR_H * textSize))
    ∧ wordWrap ⟨List.replicate 40 'x'⟩ 20
        = [⟨List.replicate 20 'x'⟩, ⟨List.replicate 20 'x'⟩] := by
  refine ⟨?_, fun _ _ => rfl, by decide⟩
  intro text cpl
  unfold wordWrap amendedWrap
  rw [wordWrapGo_eq_amended]

lemma wordWrapGo_length_le (cpl : Nat) : ∀ (b : Nat) (cs : List Char),
    (wordWrapGo cpl b cs).length ≤ b := by
  intro b
  induction b with
  | zero => intro cs; simp [wordWrapGo]
  | succ b ih =>
      intro cs
      cases cs with
      | nil => simp [wordWrapGo]
      | cons c rest =>
          simp only [wordWrapGo]
          split_ifs <;> simp <;> exact ih _

/-- C10: `_word_wrap` returns at most 32 lines for every text and budget,
and past the 32-line cap trailing characters are silently dropped: 33 `'x'`
characters at 1 char/line yield exactly 32 one-character lines (32 of the 33
input characters), the cap also being what bounds the loop. -/
theorem c10_word_wrap_line_cap :
    (∀ (text : String) (cpl : Nat), (wordWrap text cpl).length ≤ 32)
    ∧ wordWrap ⟨List.replicate 33 'x'⟩ 1 = List.replicate 32 "x" := by
  refine ⟨fun text cpl => ?_, by decide⟩
  unfold wordWrap
  simpa using wordWrapGo_length_le cpl 32 text.data

/-- C9 counterexample: an SRT text whose two blocks carry decreasing start
times parses (on the SRT path) to a list that is not in non-decreasing
`start_ms` order — `parse_srt` appends SRT blocks in input order and never
sorts them. -/
theorem c9_counterexample_srt_blocks_not_sorted :
    parseSrt "1\n00:00:10,000 --> 00:00:11,000\nb\n\n2\n00:00:01,000 --> 00:00:02,000\na"
      = [⟨1, 10000, 11000, "b"⟩, ⟨2, 1000, 2000, "a"⟩]
    ∧ ¬ sortedByStart
        (parseSrt "1\n00:00:10,000 --> 00:00:11,000\nb\n\n2\n00:00:01,000 --> 00:00:02,000\na") := by
  have h : parseSrt "1\n00:00:10,000 --> 00:00:11,000\nb\n\n2\n00:00:01,000 --> 00:00:02,000\na"
      = [⟨1, 10000, 11000, "b"⟩, ⟨2, 1000, 2000, "a"⟩] := by decide
  refine ⟨h, ?_⟩
  rw [h]
  intro hs
  have h10 : (10000 : Int) ≤ 1000 :=
    (List.pairwise_cons.mp hs).1 ⟨2, 1000, 2000, "a"⟩ (by simp)
  omega

lemma mergeSort_pairwise_leFst (entries : List (Int × List Char)) :
    (entries.mergeSort leFst).Pairwise (fun a b => a.1 ≤ b.1) := by
  have htrans : ∀ a b c : Int × List Char,
      leFst a b = true → leFst b c = true → leFst a c = true := by
    intro a b c hab hbc
    simp only [leFst, decide_eq_true_eq] at *
    omega
  have htotal : ∀ a b : Int × List Char, (leFst a b || leFst b a) = true := by
    intro a b
    simp only [leFst, Bool.or_eq_true, decide_eq_true_eq]
    omega
  have := List.sorted_mergeSort htrans htotal entries
  exact this.imp (fun h => by simpa [leFst, decide_eq_true_eq] using h)

lemma lrcBuild_start_mem : ∀ (i : Nat) (entries : List (Int × List Char))
    (x : LyricLine), x ∈ lrcBuild i entries → ∃ p ∈ entries, x.start_ms = p.1 := by
  intro i entries
  induction entries generalizing i with
  | nil => simp [lrcBuild]
  | cons p rest ih =>
      intro x hx
      obtain ⟨s, t⟩ := p
      simp only [lrcBuild] at hx
      by_cases ht : t.isEmpty
      · rw [if_pos ht] at hx
        obtain ⟨q, hq, hqs⟩ := ih (i + 1) x hx
        exact ⟨q, List.mem_cons_of_mem _ hq, hqs⟩
      · rw [if_neg ht] at hx
        rcases List.mem_cons.mp hx with rfl | hx'
        · exact ⟨(s, t), List.mem_cons_self _ _, rfl⟩
        · obtain ⟨q, hq, hqs⟩ := ih (i + 1) x hx'
          exact ⟨q, List.mem_cons_of_mem _ hq, hqs⟩

lemma lrcBuild_pairwise : ∀ (i : Nat) (entries : List (Int × List Char)),
    entries.Pairwise (fun a b => a.1 ≤ b.1) →
    sortedByStart (lrcBuild i entries) := by
  intro i entries
  induction entries generalizing i with
  | nil => simp [lrcBuild, sortedByStart]
  | cons p rest ih =>
      intro hp
      obtain ⟨hhead, htail⟩ := List.pairwise_cons.mp hp
      obtain ⟨s, t⟩ := p
      simp only [lrcBuild]
      by_cases ht : t.isEmpty
      · rw [if_pos ht]
        exact ih (i + 1) htail
      · rw [if_neg ht]
        refine List.pairwise_cons.mpr ⟨?_, ih (i + 1) htail⟩
        intro x hx
        obtain ⟨q, hq, hqs⟩ := lrcBuild_start_mem (i + 1) rest x hx
        show s ≤ x.start_ms
        rw [hqs]
        exact hhead q hq

/-- C9 (amended): the LRC fallback path of the parser returns `LyricLine`
entries in non-decreasing `start_ms` order for every input, while the SRT
path emits entries in the input's block order (so its output is sorted
exactly when the blocks are, as in well-formed SRT files, but not in
general). -/
theorem c9_lrc_sorted_srt_in_block_order :
    (∀ cs : List Char, sortedByStart (parseLrc cs))
    ∧ parseSrt "1\n00:00:01,000 --> 00:00:02,000\na\n\n2\n00:00:10,000 --> 00:00:11,000\nb"
        = [⟨1, 1000, 2000, "a"⟩, ⟨2, 10000, 11000, "b"⟩]
    ∧ sortedByStart
        (parseSrt "1\n00:00:01,000 --> 00:00:02,000\na\n\n2\n00:00:10,000 --> 00:00:11,000\nb") := by
  refine ⟨?_, by decide, ?_⟩
  · intro cs
    simp only [parseLrc]
    split
    · exact List.Pairwise.nil
    · exact lrcBuild_pairwise 1 _ (mergeSort_pairwise_leFst _)
  · have h : parseSrt "1\n00:00:01,000 --> 00:00:02,000\na\n\n2\n00:00:10,000 --> 00:00:11,000\nb"
        = [⟨1, 1000, 2000, "a"⟩, ⟨2, 10000, 11000, "b"⟩] := by decide
    rw [h]
    exact List.pairwise_cons.mpr ⟨by intro x hx; simp at hx; subst hx; norm_num,
      List.pairwise_cons.mpr ⟨by simp, List.Pairwise.nil⟩⟩

end LyricApp
